import Mathlib

/-!
Verification of the drift-detection and apply core of `kustomizer`
(`pkg/resmgr/manager_diff.go` and `cmd/kustomizer/apply.go`).

The Go code operates on `unstructured.Unstructured` values: JSON-like trees of
`map[string]interface{}`, `[]interface{}`, `string`, `bool`, `int64`, and `nil`.
We embed those trees as `KVal`, with Go maps represented as association lists
(a Go map always has pairwise-distinct keys; where a proof needs that fact it
appears as a `nodupKeysB` hypothesis).

`apiequality.Semantic.DeepDerivative` (k8s.io/apimachinery) on unstructured
data reduces to the forked `deepValueDerive`:
  - a `nil`/unset desired value is ignored (compares true);
  - differing kinds compare false;
  - a desired string compares true when empty, else by equality;
  - a desired slice compares true when empty, false when longer than the
    existing slice, else index-wise over the desired prefix;
  - a desired map compares true when empty, false when it has more entries than
    the existing map, else entry-wise, looking each desired key up in the
    existing map (a key missing on the existing side compares false);
  - booleans and integers compare by equality.
-/

namespace Kustomizer

/-- A Go `interface{}` value inside an `unstructured.Unstructured` object:
`nil`, `bool`, `int64`, `string`, `[]interface{}` or `map[string]interface{}`. -/
inductive KVal where
  | vnull : KVal
  | vbool (b : Bool) : KVal
  | vint (n : Int) : KVal
  | vstr (s : String) : KVal
  | vlist (xs : List KVal) : KVal
  | vmap (m : List (String × KVal)) : KVal

/-- Go map indexing `m[k]`: first entry with key `k` (a Go map has at most one). -/
def lookupStr (k : String) : List (String × KVal) → Option KVal
  | [] => none
  | p :: r => if p.1 == k then some p.2 else lookupStr k r

mutual

/-- `apiequality.Semantic.DeepDerivative` (deepValueDerive) on unstructured
values: every field explicitly set on the desired (first) side must match the
existing (second) side; unset/empty desired values are ignored. -/
def deepDerive : KVal → KVal → Bool
  | .vnull, _ => true
  | .vbool b1, .vbool b2 => b1 == b2
  | .vint n1, .vint n2 => n1 == n2
  | .vstr s1, .vstr s2 => s1 == "" || s1 == s2
  | .vlist xs, .vlist ys =>
      xs.isEmpty || (decide (xs.length ≤ ys.length) && zipDerive xs ys)
  | .vmap m1, .vmap m2 =>
      m1.isEmpty || (decide (m1.length ≤ m2.length) && entriesDerive m1 m2)
  | _, _ => false
termination_by v1 _ => sizeOf v1

/-- Index-wise comparison of the desired slice prefix against the existing slice. -/
def zipDerive : List KVal → List KVal → Bool
  | [], _ => true
  | _ :: _, [] => false
  | x :: xs, y :: ys => deepDerive x y && zipDerive xs ys
termination_by xs _ => sizeOf xs

/-- Entry-wise comparison of the desired map against the existing map:
each desired key is looked up on the existing side. -/
def entriesDerive : List (String × KVal) → List (String × KVal) → Bool
  | [], _ => true
  | (k, v) :: rest, m2 =>
      (match lookupStr k m2 with
       | some w => deepDerive v w
       | none => false) && entriesDerive rest m2
termination_by m1 _ => sizeOf m1

end

/-- `unstructured.Unstructured`: the top-level `Object` map of a Kubernetes object. -/
structure Unstructured where
  obj : List (String × KVal)

/-- Map a function over the value stored at key `k` (Go: `m[k] = f(m[k])` when present). -/
def mapAtKey (k : String) (f : KVal → KVal) (m : List (String × KVal)) :
    List (String × KVal) :=
  m.map fun p => if p.1 == k then (p.1, f p.2) else p

/-- `Unstructured.GetResourceVersion`: `NestedString(u.Object, "metadata", "resourceVersion")`,
empty string when the path is absent or not a string. -/
def getResourceVersion (u : Unstructured) : String :=
  match lookupStr "metadata" u.obj with
  | some (.vmap meta) =>
    match lookupStr "resourceVersion" meta with
    | some (.vstr s) => s
    | _ => ""
  | _ => ""

/-- `Unstructured.GetKind`: `NestedString(u.Object, "kind")`. -/
def getKind (u : Unstructured) : String :=
  match lookupStr "kind" u.obj with
  | some (.vstr s) => s
  | _ => ""

/-- `NestedString(u.Object, "metadata", key)`: used for name and namespace. -/
def getMetaString (u : Unstructured) (key : String) : String :=
  match lookupStr "metadata" u.obj with
  | some (.vmap meta) =>
    match lookupStr key meta with
    | some (.vstr s) => s
    | _ => ""
  | _ => ""

/-- Conversion step of `NestedStringMap`: succeeds only when every value is a string. -/
def strEntries (m : List (String × KVal)) : List (String × String) :=
  if m.all (fun p => match p.2 with | .vstr _ => true | _ => false) then
    m.filterMap (fun p => match p.2 with | .vstr s => some (p.1, s) | _ => none)
  else []

/-- `NestedStringMap(u.Object, "metadata", key)` as used by `GetLabels` /
`GetAnnotations`: nil (here `[]`) when the path is absent, not a map, or
holds a non-string value. -/
def getStrMap (u : Unstructured) (key : String) : List (String × String) :=
  match lookupStr "metadata" u.obj with
  | some (.vmap meta) =>
    match lookupStr key meta with
    | some (.vmap m) => strEntries m
    | _ => []
  | _ => []

/-- `Unstructured.GetLabels`. -/
def getLabels (u : Unstructured) : List (String × String) :=
  getStrMap u "labels"

/-- `Unstructured.GetAnnotations`. -/
def getAnnotations (u : Unstructured) : List (String × String) :=
  getStrMap u "annotations"

/-- A Go `map[string]string` viewed as an unstructured value for `DeepDerivative`. -/
def strMapVal (l : List (String × String)) : KVal :=
  .vmap (l.map fun p => (p.1, .vstr p.2))

/-- `Object["spec"]` / `Object["webhooks"]` the way `hasDrifted` reads them: a
missing key is the nil interface value (`DeepDerivative` then ignores a nil
desired side and rejects a nil existing side against a non-nil desired side). -/
def topField (u : Unstructured) (k : String) : KVal :=
  (lookupStr k u.obj).getD .vnull

/-- `ResourceManager.hasDrifted` (manager_diff.go): detects changes to metadata
labels, metadata annotations, spec and webhooks.  Returns true unconditionally
when the dry-run result has no resource version; otherwise compares labels,
then annotations, then exactly one body scope chosen from the existing object:
`spec` when present, else `webhooks` when present, else the whole object. -/
def hasDrifted (existingObject dryRunObject : Unstructured) : Bool :=
  if getResourceVersion dryRunObject == "" then true
  else if !deepDerive (strMapVal (getLabels dryRunObject))
      (strMapVal (getLabels existingObject)) then true
  else if !deepDerive (strMapVal (getAnnotations dryRunObject))
      (strMapVal (getAnnotations existingObject)) then true
  else if (lookupStr "spec" existingObject.obj).isSome then
    !deepDerive (topField dryRunObject "spec") (topField existingObject "spec")
  else if (lookupStr "webhooks" existingObject.obj).isSome then
    !deepDerive (topField dryRunObject "webhooks") (topField existingObject "webhooks")
  else
    !deepDerive (.vmap dryRunObject.obj) (.vmap existingObject.obj)

/-- A Go error as `validationError` inspects it: whether
`apierrors.IsNotFound` holds, and the message `%w` interpolates. -/
structure GoError where
  isNotFound : Bool
  msg : String

/-- Modelled from the spec: the formatter's `Unstructured` printer
(`kc.fmt.Unstructured`, not under src/) renders the human-addressed object
identity kind/namespace/name used as the prefix of every error. -/
def fmtUnstructured (u : Unstructured) : String :=
  getKind u ++ "/" ++ getMetaString u "namespace" ++ "/" ++ getMetaString u "name"

/-- `ResourceManager.validationError` (manager_diff.go): formats a dry-run
apply error; for a not-found error reports a missing namespace (wrapping the
error), for a Secret returns a fixed message, otherwise wraps the error. -/
def validationError (object : Unstructured) (err : GoError) : String :=
  if err.isNotFound then
    fmtUnstructured object ++ " namespace not specified, error: " ++ err.msg
  else if getKind object == "Secret" then
    fmtUnstructured object ++ " is invalid, error: data values must be of type string"
  else
    fmtUnstructured object ++ " is invalid, error: " ++ err.msg

/-- The reconciliation action recorded in a change-set entry. -/
inductive Action where
  | created
  | configured
  | unchanged
deriving DecidableEq

/-- A change-set entry: subject identity, action, and the pair of objects
handed to the textual diff renderer (`none` means the entry carries no diff
text; the renderer receives the existing object first, the dry-run object
second, exactly as `cmp.Diff(string(e), string(d))` does). -/
structure ChangeSetEntry where
  subject : String
  action : Action
  diff : Option (Unstructured × Unstructured)

/-- Modelled from the spec: `ResourceManager.changeSetEntry` (manager.go, not
under src/) builds the entry for an object and an action; the diff text is
optional and only ever attached afterwards by `Diff`, so a fresh entry has
none. -/
def changeSetEntry (u : Unstructured) (a : Action) : ChangeSetEntry :=
  { subject := fmtUnstructured u, action := a, diff := none }

/-- `unstructured.RemoveNestedField(obj.Object, "metadata", "managedFields")`:
drops the managedFields bookkeeping entry from the metadata map (no-op when
metadata is absent or not a map). -/
def removeManagedFields (u : Unstructured) : Unstructured :=
  ⟨mapAtKey "metadata"
    (fun v => match v with
      | .vmap m => .vmap (m.filter fun q => !(q.1 == "managedFields"))
      | w => w) u.obj⟩

/-- Modelled from the spec: the formatter's `MaskSecret` (not under src/)
replaces every sensitive value — each value of the Secret's `data` map — by
the given mask token before the diff is rendered. -/
def maskSecret (u : Unstructured) (mask : String) : Unstructured :=
  ⟨mapAtKey "data"
    (fun v => match v with
      | .vmap m => .vmap (m.map fun q => (q.1, .vstr mask))
      | w => w) u.obj⟩

/-- `ResourceManager.Diff` (manager_diff.go).  The interactions with the
cluster are inputs: `getResult` is what `kubeClient.Get` wrote into the deep
copy `existingObject` (`none` when Get returned an error, in which case the
copy of `object` is left in place — the error is discarded), and
`dryRunResult` is the outcome of `dryRunApply` on the deep copy
`dryRunObject`. -/
def Diff (object : Unstructured) (getResult : Option Unstructured)
    (dryRunResult : Except GoError Unstructured) : Except String ChangeSetEntry :=
  let existingObject := match getResult with
    | some live => live
    | none => object
  match dryRunResult with
  | .error err => .error (validationError object err)
  | .ok dryRunObject =>
    if getResourceVersion dryRunObject == "" then
      .ok (changeSetEntry dryRunObject .created)
    else if hasDrifted existingObject dryRunObject then
      let cse := changeSetEntry object .configured
      let dry1 := removeManagedFields dryRunObject
      let ex1 := removeManagedFields existingObject
      if getKind dry1 == "Secret" then
        .ok { cse with diff := some (maskSecret ex1 "*****", maskSecret dry1 "******") }
      else
        .ok { cse with diff := some (ex1, dry1) }
    else
      .ok (changeSetEntry dryRunObject .unchanged)

/-! ### Heap model of `Diff`

Go passes `object` by pointer; `DeepCopy` allocates a fresh object, and
`kubeClient.Get`, `dryRunApply` and `RemoveNestedField` mutate whichever
object they are handed.  To reason about mutation we re-run `Diff` over an
explicit heap of objects: `cells` maps addresses to object values and `next`
is the next fresh address (every allocated address is `< next`). -/

structure Heap where
  cells : Nat → Unstructured
  next : Nat

/-- Allocate a fresh cell holding `v` (what `DeepCopy` does). -/
def halloc (h : Heap) (v : Unstructured) : Nat × Heap :=
  (h.next, ⟨fun n => if n = h.next then v else h.cells n, h.next + 1⟩)

/-- Overwrite the cell at `a` (what an in-place mutation does). -/
def hwrite (h : Heap) (a : Nat) (v : Unstructured) : Heap :=
  ⟨fun n => if n = a then v else h.cells n, h.next⟩

/-- `ResourceManager.Diff` replayed on the heap: `objAddr` is the caller's
object; each `DeepCopy` allocates, `Get`/`dryRunApply`/`RemoveNestedField`
write to those copies, and `MaskSecret` returns fresh objects that the local
variables are rebound to. -/
def DiffHeap (h0 : Heap) (objAddr : Nat) (getResult : Option Unstructured)
    (dryRunResult : Except GoError Unstructured) :
    Except String ChangeSetEntry × Heap :=
  let p1 := halloc h0 (h0.cells objAddr)
  let exAddr := p1.1
  let h1 := p1.2
  let h2 := match getResult with
    | some live => hwrite h1 exAddr live
    | none => h1
  let p2 := halloc h2 (h2.cells objAddr)
  let dryAddr := p2.1
  let h3 := p2.2
  match dryRunResult with
  | .error err => (.error (validationError (h3.cells dryAddr) err), h3)
  | .ok dro =>
    let h4 := hwrite h3 dryAddr dro
    if getResourceVersion (h4.cells dryAddr) == "" then
      (.ok (changeSetEntry (h4.cells dryAddr) .created), h4)
    else if hasDrifted (h4.cells exAddr) (h4.cells dryAddr) then
      let cse := changeSetEntry (h4.cells objAddr) .configured
      let h5 := hwrite h4 dryAddr (removeManagedFields (h4.cells dryAddr))
      let h6 := hwrite h5 exAddr (removeManagedFields (h5.cells exAddr))
      if getKind (h6.cells dryAddr) == "Secret" then
        let p3 := halloc h6 (maskSecret (h6.cells dryAddr) "******")
        let h7 := p3.2
        let p4 := halloc h7 (maskSecret (h7.cells exAddr) "*****")
        let h8 := p4.2
        (.ok { cse with diff := some (h8.cells p4.1, h8.cells p3.1) }, h8)
      else
        (.ok { cse with diff := some (h6.cells exAddr, h6.cells dryAddr) }, h6)
    else
      (.ok (changeSetEntry (h4.cells dryAddr) .unchanged), h4)

/-! ### The apply command (`cmd/kustomizer/apply.go`)

`runApplyCmd` applies each object in order, returning on the first error;
only after every apply succeeded does it query the stale objects and store the
new inventory record.  We model the run as the trace of cluster-visible steps
it performs, with the per-object apply outcomes and the inventory call
outcomes as inputs.  (On success the run continues with optional prune and
wait phases, which follow the `Store` call and are irrelevant here.) -/

inductive RunEvent where
  | applyObj (i : Nat)
  | getStale
  | store
deriving DecidableEq

/-- The apply loop (`for _, object := range objects { ... }`): events emitted
and the error that aborted the run, if any. -/
def applyPhase : Nat → List (Option String) → List RunEvent × Option String
  | _, [] => ([], none)
  | i, r :: rs =>
    match r with
    | some e => ([.applyObj i], some e)
    | none =>
      let rec' := applyPhase (i + 1) rs
      (.applyObj i :: rec'.1, rec'.2)

/-- `runApplyCmd` after manifest building: the apply loop, then
`GetStaleObjects`, then `Store` (each aborting the run on error). -/
def runApplyCmd (applyErrs : List (Option String))
    (staleErr storeErr : Option String) : List RunEvent × Option String :=
  let ap := applyPhase 0 applyErrs
  match ap.2 with
  | some e => (ap.1, some e)
  | none =>
    match staleErr with
    | some e => (ap.1 ++ [.getStale], some ("inventory query failed, error: " ++ e))
    | none =>
      match storeErr with
      | some e => (ap.1 ++ [.getStale, .store], some ("inventory apply failed, error: " ++ e))
      | none => (ap.1 ++ [.getStale, .store], none)

/-! ### Well-formedness

A Go map never holds two entries with the same key.  `nodupKeysB` states that
for one association list, `wfVal` recursively for a whole value tree. -/

/-- Is `k` a key of the association list? -/
def keyMem (k : String) : List (String × KVal) → Bool
  | [] => false
  | p :: r => p.1 == k || keyMem k r

/-- Pairwise-distinct keys (every Go map satisfies this). -/
def nodupKeysB : List (String × KVal) → Bool
  | [] => true
  | p :: r => !keyMem p.1 r && nodupKeysB r

mutual

/-- Every map in the value tree has pairwise-distinct keys. -/
def wfVal : KVal → Bool
  | .vnull => true
  | .vbool _ => true
  | .vint _ => true
  | .vstr _ => true
  | .vlist xs => wfList xs
  | .vmap m => nodupKeysB m && wfEntries m
termination_by v => sizeOf v

/-- `wfVal` for every element. -/
def wfList : List KVal → Bool
  | [] => true
  | x :: xs => wfVal x && wfList xs
termination_by xs => sizeOf xs

/-- `wfVal` for every entry value. -/
def wfEntries : List (String × KVal) → Bool
  | [] => true
  | (_, v) :: r => wfVal v && wfEntries r
termination_by m => sizeOf m

end

/-- Does the Secret's `data` field hold a map (or no `data` at all)?  This is
the shape `MaskSecret` expects; a valid Secret always satisfies it. -/
def dataIsMap (u : Unstructured) : Bool :=
  match lookupStr "data" u.obj with
  | some (.vmap _) => true
  | some _ => false
  | none => true

/-- Every value of the object's `data` map equals the mask token (vacuously
true when there is no `data` field). -/
def allDataMasked (u : Unstructured) (mask : String) : Bool :=
  match lookupStr "data" u.obj with
  | some (.vmap dm) =>
    dm.all fun q => match q.2 with | .vstr s => s == mask | _ => false
  | some _ => false
  | none => true

/-- Replace the value stored under `k2` of the map stored under `k1`
(used to restate an object with one nested map permuted). -/
def setNested2 (u : Unstructured) (k1 k2 : String) (v : KVal) : Unstructured :=
  ⟨mapAtKey k1
    (fun w => match w with
      | .vmap m => .vmap (mapAtKey k2 (fun _ => v) m)
      | w => w) u.obj⟩

/-- Does `needle` occur at the head of `hay`? -/
def leadMatch : List Char → List Char → Bool
  | [], _ => true
  | _ :: _, [] => false
  | a :: as, b :: bs => a == b && leadMatch as bs

/-- Does `needle` occur anywhere inside `hay`? -/
def textHas (needle : List Char) : List Char → Bool
  | [] => leadMatch needle []
  | b :: rest => leadMatch needle (b :: rest) || textHas needle rest

theorem keyMem_of_mem {k : String} {v : KVal} {m : List (String × KVal)}
    (hm : (k, v) ∈ m) : keyMem k m = true := by
  induction m with
  | nil => cases hm
  | cons p r ih =>
    rcases List.mem_cons.mp hm with h | h
    · rw [← h]; simp [keyMem]
    · simp [keyMem, ih h]

theorem lookupStr_nodup_mem {k : String} {v : KVal} {m : List (String × KVal)}
    (hn : nodupKeysB m = true) (hm : (k, v) ∈ m) : lookupStr k m = some v := by
  induction m with
  | nil => cases hm
  | cons p r ih =>
    simp only [nodupKeysB, Bool.and_eq_true, Bool.not_eq_true'] at hn
    rcases List.mem_cons.mp hm with h | h
    · rw [← h]; simp [lookupStr]
    · have hk : ¬ p.1 = k := by
        intro he
        have hkm := keyMem_of_mem h
        rw [← he, hn.1] at hkm
        cases hkm
      simp [lookupStr, hk, ih hn.2 h]

theorem wfEntries_val {m : List (String × KVal)} {k : String} {v : KVal}
    (hw : wfEntries m = true) (hm : (k, v) ∈ m) : wfVal v = true := by
  induction m with
  | nil => cases hm
  | cons p r ih =>
    obtain ⟨a, b⟩ := p
    rw [wfEntries, Bool.and_eq_true] at hw
    rcases List.mem_cons.mp hm with h | h
    · cases h; exact hw.1
    · exact ih hw.2 h

/-- Auxiliary: `entriesDerive` holds when every desired entry looks up
successfully and derives. -/
theorem entriesDerive_of_forall {m1 m2 : List (String × KVal)}
    (h : ∀ p ∈ m1, ∃ w, lookupStr p.1 m2 = some w ∧ deepDerive p.2 w = true) :
    entriesDerive m1 m2 = true := by
  induction m1 with
  | nil => rw [entriesDerive]
  | cons p r ih =>
    obtain ⟨k, v⟩ := p
    obtain ⟨w, hw, hd⟩ := h (k, v) (List.mem_cons_self _ r)
    have ht := ih (fun q hq => h q (List.mem_cons_of_mem _ hq))
    simp only at hw hd
    rw [entriesDerive, hw, ht]
    simpa using hd

/-- Auxiliary: `zipDerive` on a list against itself. -/
theorem zipDerive_of_forall {xs : List KVal}
    (h : ∀ x ∈ xs, deepDerive x x = true) : zipDerive xs xs = true := by
  induction xs with
  | nil => rw [zipDerive]
  | cons x r ih =>
    simp [zipDerive, h x (List.mem_cons_self x r),
      ih (fun y hy => h y (List.mem_cons_of_mem x hy))]

theorem deepDerive_refl_bound (n : Nat) :
    ∀ v : KVal, sizeOf v ≤ n → wfVal v = true → deepDerive v v = true := by
  induction n with
  | zero =>
    intro v hs
    exfalso
    cases v <;> simp at hs
  | succ n ih =>
    intro v hs h
    cases v with
    | vnull => rw [deepDerive]
    | vbool b => simp [deepDerive]
    | vint m => simp [deepDerive]
    | vstr s => simp [deepDerive]
    | vlist xs =>
      rw [deepDerive]
      rw [wfVal] at h
      have hz : zipDerive xs xs = true := by
        apply zipDerive_of_forall
        intro x hx
        have hsx := List.sizeOf_lt_of_mem hx
        have hwx : wfVal x = true := by
          clear ih hs hsx
          induction xs with
          | nil => cases hx
          | cons y r ihy =>
            rw [wfList, Bool.and_eq_true] at h
            rcases List.mem_cons.mp hx with h2 | h2
            · rw [h2]; exact h.1
            · exact ihy h.2 h2
        exact ih x (by simp at hs; omega) hwx
      simp [hz]
    | vmap m =>
      rw [deepDerive]
      rw [wfVal, Bool.and_eq_true] at h
      have he : entriesDerive m m = true := by
        apply entriesDerive_of_forall
        intro p hp
        obtain ⟨k, v⟩ := p
        refine ⟨v, lookupStr_nodup_mem h.1 hp, ?_⟩
        have hsv := List.sizeOf_lt_of_mem hp
        simp at hsv hs
        exact ih v (by omega) (wfEntries_val h.2 hp)
      simp [he]

/-- `DeepDerivative` is reflexive on well-formed values (as every tree built
from Go maps is, keys being pairwise distinct). -/
theorem deepDerive_refl (v : KVal) (h : wfVal v = true) : deepDerive v v = true :=
  deepDerive_refl_bound (sizeOf v) v (Nat.le_refl _) h

/-! ### Claim theorems -/

/-- C1: for every object whose dry-run apply result carries no resource
version, `Diff` classifies the object as Created — never Configured or
Unchanged — and `hasDrifted` returns true unconditionally for such a dry-run
result. -/
theorem diff_created_when_no_resource_version (object : Unstructured)
    (getResult : Option Unstructured) (dro : Unstructured)
    (h : getResourceVersion dro = "") :
    Diff object getResult (.ok dro) = .ok (changeSetEntry dro .created) ∧
    (changeSetEntry dro .created).action = .created ∧
    ∀ existing : Unstructured, hasDrifted existing dro = true := by
  refine ⟨?_, rfl, ?_⟩
  · simp [Diff, h]
  · intro ex
    simp [hasDrifted, h]

theorem diff_created_when_no_resource_version_witness :
    getResourceVersion ⟨[("kind", .vstr "ConfigMap")]⟩ = "" ∧
    Diff ⟨[]⟩ none (.ok ⟨[("kind", .vstr "ConfigMap")]⟩) =
      .ok (changeSetEntry ⟨[("kind", .vstr "ConfigMap")]⟩ .created) ∧
    hasDrifted ⟨[]⟩ ⟨[("kind", .vstr "ConfigMap")]⟩ = true := by
  have h : getResourceVersion ⟨[("kind", .vstr "ConfigMap")]⟩ = "" := by
    simp [getResourceVersion, lookupStr]
  exact ⟨h, (diff_created_when_no_resource_version ⟨[]⟩ none _ h).1,
    (diff_created_when_no_resource_version ⟨[]⟩ none _ h).2.2 ⟨[]⟩⟩

/-- C10: `Diff` never returns an error because of a failure to fetch the
existing object: when the dry-run succeeds the result is always `ok`
whatever the Get outcome was, and a failed Get (every error, not only
not-found, is discarded) behaves exactly as if the live object were the deep
copy of the desired object. -/
theorem diff_discards_get_errors :
    (∀ (object dro : Unstructured) (g : Option Unstructured),
      ∃ cse, Diff object g (.ok dro) = .ok cse) ∧
    (∀ (object : Unstructured) (d : Except GoError Unstructured),
      Diff object none d = Diff object (some object) d) := by
  constructor
  · intro object dro g
    simp only [Diff]
    split
    · exact ⟨_, rfl⟩
    · split
      · split
        · exact ⟨_, rfl⟩
        · exact ⟨_, rfl⟩
      · exact ⟨_, rfl⟩
  · intro object d
    rfl

/-- Every event the apply loop emits is an apply event. -/
theorem applyPhase_events (l : List (Option String)) :
    ∀ i, ∀ ev ∈ (applyPhase i l).1, ∃ j, ev = RunEvent.applyObj j := by
  induction l with
  | nil => intro i ev hev; simp [applyPhase] at hev
  | cons r rs ih =>
    intro i ev hev
    cases r with
    | some e =>
      simp [applyPhase] at hev
      exact ⟨i, hev⟩
    | none =>
      simp only [applyPhase] at hev
      rcases List.mem_cons.mp hev with h | h
      · exact ⟨i, h⟩
      · exact ih (i + 1) ev h

/-- The apply loop aborts with an error whenever any apply failed. -/
theorem applyPhase_err (l : List (Option String)) :
    ∀ i, (∃ e ∈ l, e.isSome) → ((applyPhase i l).2).isSome := by
  induction l with
  | nil => intro i h; simp at h
  | cons r rs ih =>
    intro i h
    cases r with
    | some e => simp [applyPhase]
    | none =>
      simp only [applyPhase]
      apply ih
      rcases h with ⟨e, he, hs⟩
      rcases List.mem_cons.mp he with h2 | h2
      · rw [h2] at hs; cases hs
      · exact ⟨e, h2, hs⟩

/-- C8: in the apply command's run, the inventory `Store` (and the
`GetStaleObjects` query before it) is reached only after every `Apply`
succeeded: if any apply returns an error the run returns first, so the
previously persisted inventory record is never overwritten on a failed apply
pass. -/
theorem store_only_after_all_applies (applyErrs : List (Option String))
    (staleErr storeErr : Option String)
    (h : ∃ e ∈ applyErrs, e.isSome) :
    RunEvent.store ∉ (runApplyCmd applyErrs staleErr storeErr).1 ∧
    RunEvent.getStale ∉ (runApplyCmd applyErrs staleErr storeErr).1 := by
  have herr := applyPhase_err applyErrs 0 h
  have hev := applyPhase_events applyErrs 0
  rcases hs : (applyPhase 0 applyErrs).2 with _ | e
  · rw [hs] at herr; cases herr
  · have htrace : (runApplyCmd applyErrs staleErr storeErr).1 = (applyPhase 0 applyErrs).1 := by
      simp [runApplyCmd, hs]
    rw [htrace]
    constructor
    · intro hmem
      obtain ⟨j, hj⟩ := hev _ hmem
      cases hj
    · intro hmem
      obtain ⟨j, hj⟩ := hev _ hmem
      cases hj

theorem store_only_after_all_applies_witness :
    (∃ e ∈ [some "apply failed", none], Option.isSome e) ∧
    RunEvent.store ∉ (runApplyCmd [some "apply failed", none] none none).1 ∧
    RunEvent.getStale ∉ (runApplyCmd [some "apply failed", none] none none).1 := by
  have h : ∃ e ∈ [some "apply failed", none], Option.isSome e :=
    ⟨some "apply failed", by simp⟩
  exact ⟨h, (store_only_after_all_applies _ none none h).1,
    (store_only_after_all_applies _ none none h).2⟩

theorem lookupStr_mem {k : String} {v : KVal} {m : List (String × KVal)}
    (h : lookupStr k m = some v) : (k, v) ∈ m := by
  induction m with
  | nil => cases h
  | cons p r ih =>
    rw [lookupStr] at h
    by_cases hk : p.1 = k
    · rw [if_pos (by simp [hk])] at h
      cases h
      rw [← hk]
      exact List.mem_cons_self _ _
    · rw [if_neg (by simp [hk])] at h
      exact List.mem_cons_of_mem _ (ih h)

theorem wfVal_lookup {m : List (String × KVal)} {k : String} {v : KVal}
    (hwf : wfVal (.vmap m) = true) (h : lookupStr k m = some v) : wfVal v = true := by
  rw [wfVal, Bool.and_eq_true] at hwf
  exact wfEntries_val hwf.2 (lookupStr_mem h)

theorem nodupKeysB_lookup {m : List (String × KVal)}
    (hwf : wfVal (.vmap m) = true) : nodupKeysB m = true := by
  rw [wfVal, Bool.and_eq_true] at hwf
  exact hwf.1

theorem keyMem_eq_true_iff {k : String} {m : List (String × KVal)} :
    keyMem k m = true ↔ k ∈ m.map Prod.fst := by
  induction m with
  | nil => simp [keyMem]
  | cons p r ih =>
    rw [keyMem, List.map_cons, List.mem_cons, Bool.or_eq_true, ih]
    constructor
    · rintro (h | h)
      · exact Or.inl (eq_of_beq h).symm
      · exact Or.inr h
    · rintro (h | h)
      · exact Or.inl (beq_iff_eq.mpr h.symm)
      · exact Or.inr h

theorem nodupKeysB_eq_true_iff {m : List (String × KVal)} :
    nodupKeysB m = true ↔ (m.map Prod.fst).Nodup := by
  induction m with
  | nil => simp [nodupKeysB]
  | cons p r ih =>
    rw [nodupKeysB, Bool.and_eq_true, List.map_cons, List.nodup_cons]
    constructor
    · rintro ⟨h1, h2⟩
      refine ⟨?_, ih.mp h2⟩
      intro hmem
      rw [← keyMem_eq_true_iff] at hmem
      rw [Bool.not_eq_true'] at h1
      rw [h1] at hmem
      cases hmem
    · rintro ⟨h1, h2⟩
      refine ⟨?_, ih.mpr h2⟩
      rw [Bool.not_eq_true']
      cases hk : keyMem p.1 r
      · rfl
      · exact absurd (keyMem_eq_true_iff.mp hk) h1

theorem filterMap_str_keys_sublist (m : List (String × KVal)) :
    ((m.filterMap fun p => match p.2 with
        | KVal.vstr s => some (p.1, s)
        | _ => none).map Prod.fst).Sublist (m.map Prod.fst) := by
  induction m with
  | nil => simp
  | cons p r ih =>
    obtain ⟨k, v⟩ := p
    cases v <;> simp [List.filterMap_cons] <;>
      first
      | exact ih
      | exact List.Sublist.cons _ ih

theorem strEntries_keys_sublist (m : List (String × KVal)) :
    ((strEntries m).map Prod.fst).Sublist (m.map Prod.fst) := by
  rw [strEntries]
  split
  · exact filterMap_str_keys_sublist m
  · simp

theorem wfEntries_strMapVal (l : List (String × String)) :
    wfEntries (l.map fun p => (p.1, KVal.vstr p.2)) = true := by
  induction l with
  | nil => rw [List.map_nil, wfEntries]
  | cons p r ih =>
    rw [List.map_cons, wfEntries, ih]
    rw [wfVal]
    rfl

/-- The string-map view of any nested string map of a well-formed object is
well formed. -/
theorem wf_strMapVal_getStrMap (u : Unstructured) (key : String)
    (hwf : wfVal (.vmap u.obj) = true) : wfVal (strMapVal (getStrMap u key)) = true := by
  have hwfnil : wfVal (strMapVal []) = true := by
    simp [strMapVal, wfVal, nodupKeysB, wfEntries]
  rw [getStrMap]
  split
  next meta hm =>
    split
    next lm hl =>
      rw [strMapVal, wfVal, Bool.and_eq_true]
      refine ⟨?_, wfEntries_strMapVal _⟩
      rw [nodupKeysB_eq_true_iff]
      have hkeys : ((strEntries lm).map (fun p => (p.1, KVal.vstr p.2))).map Prod.fst =
          (strEntries lm).map Prod.fst := by
        simp
      rw [hkeys]
      have hmeta : wfVal (.vmap meta) = true := wfVal_lookup hwf hm
      have hlm : wfVal (.vmap lm) = true := wfVal_lookup hmeta hl
      have hnd : (lm.map Prod.fst).Nodup :=
        nodupKeysB_eq_true_iff.mp (nodupKeysB_lookup hlm)
      exact hnd.sublist (strEntries_keys_sublist lm)
    next => exact hwfnil
  next => exact hwfnil

theorem wf_topField (u : Unstructured) (k : String)
    (hwf : wfVal (.vmap u.obj) = true) : wfVal (topField u k) = true := by
  rw [topField]
  cases h : lookupStr k u.obj with
  | none => rw [Option.getD_none, wfVal]
  | some v =>
    rw [Option.getD_some]
    exact wfVal_lookup hwf h

/-- A well-formed live object never drifts from itself. -/
theorem hasDrifted_self (live : Unstructured) (hrv : getResourceVersion live ≠ "")
    (hwf : wfVal (.vmap live.obj) = true) : hasDrifted live live = false := by
  have hb : (getResourceVersion live == "") = false := beq_eq_false_iff_ne.mpr hrv
  have hlab : deepDerive (strMapVal (getLabels live)) (strMapVal (getLabels live)) = true :=
    deepDerive_refl _ (wf_strMapVal_getStrMap live "labels" hwf)
  have hann : deepDerive (strMapVal (getAnnotations live)) (strMapVal (getAnnotations live)) = true :=
    deepDerive_refl _ (wf_strMapVal_getStrMap live "annotations" hwf)
  have hspec : deepDerive (topField live "spec") (topField live "spec") = true :=
    deepDerive_refl _ (wf_topField live "spec" hwf)
  have hweb : deepDerive (topField live "webhooks") (topField live "webhooks") = true :=
    deepDerive_refl _ (wf_topField live "webhooks" hwf)
  have hbody : deepDerive (.vmap live.obj) (.vmap live.obj) = true :=
    deepDerive_refl _ hwf
  rw [hasDrifted, hb]
  split_ifs <;> simp_all [getLabels, getAnnotations]

/-- C4: when the second call's dry-run result equals the live object produced
by the first call (an identical object, no external change), `Diff`
classifies Unchanged and the entry carries no diff text. -/
theorem second_diff_unchanged (object live : Unstructured)
    (hrv : getResourceVersion live ≠ "") (hwf : wfVal (.vmap live.obj) = true) :
    Diff object (some live) (.ok live) = .ok (changeSetEntry live .unchanged) ∧
    (changeSetEntry live .unchanged).diff = none := by
  have hd := hasDrifted_self live hrv hwf
  have hb : (getResourceVersion live == "") = false := beq_eq_false_iff_ne.mpr hrv
  refine ⟨?_, rfl⟩
  simp [Diff, hb, hd]

theorem second_diff_unchanged_witness :
    getResourceVersion ⟨[("kind", KVal.vstr "ConfigMap"),
      ("metadata", KVal.vmap [("resourceVersion", KVal.vstr "1")])]⟩ ≠ "" ∧
    wfVal (.vmap [("kind", KVal.vstr "ConfigMap"),
      ("metadata", KVal.vmap [("resourceVersion", KVal.vstr "1")])]) = true ∧
    Diff ⟨[]⟩ (some ⟨[("kind", KVal.vstr "ConfigMap"),
        ("metadata", KVal.vmap [("resourceVersion", KVal.vstr "1")])]⟩)
      (.ok ⟨[("kind", KVal.vstr "ConfigMap"),
        ("metadata", KVal.vmap [("resourceVersion", KVal.vstr "1")])]⟩) =
      .ok (changeSetEntry ⟨[("kind", KVal.vstr "ConfigMap"),
        ("metadata", KVal.vmap [("resourceVersion", KVal.vstr "1")])]⟩ .unchanged) := by
  have hrv : getResourceVersion ⟨[("kind", KVal.vstr "ConfigMap"),
      ("metadata", KVal.vmap [("resourceVersion", KVal.vstr "1")])]⟩ ≠ "" := by
    simp [getResourceVersion, lookupStr]
  have hwf : wfVal (.vmap [("kind", KVal.vstr "ConfigMap"),
      ("metadata", KVal.vmap [("resourceVersion", KVal.vstr "1")])]) = true := by
    simp [wfVal, wfEntries, nodupKeysB, keyMem]
  exact ⟨hrv, hwf, (second_diff_unchanged ⟨[]⟩ _ hrv hwf).1⟩

/-- C2: with a resource version present on the dry-run side, `hasDrifted` is
the short-circuit disjunction of the label check, then the annotation check,
then exactly one body-scope check selected from the existing object — `spec`
when present, else `webhooks` when present, else the whole object body; it is
false exactly when every performed comparison matches. -/
theorem hasDrifted_check_order (ex dr : Unstructured)
    (h : getResourceVersion dr ≠ "") :
    hasDrifted ex dr =
      (!deepDerive (strMapVal (getLabels dr)) (strMapVal (getLabels ex)) ||
        (!deepDerive (strMapVal (getAnnotations dr)) (strMapVal (getAnnotations ex)) ||
          (if (lookupStr "spec" ex.obj).isSome then
            !deepDerive (topField dr "spec") (topField ex "spec")
          else if (lookupStr "webhooks" ex.obj).isSome then
            !deepDerive (topField dr "webhooks") (topField ex "webhooks")
          else !deepDerive (.vmap dr.obj) (.vmap ex.obj)))) := by
  have hb : (getResourceVersion dr == "") = false := beq_eq_false_iff_ne.mpr h
  rw [hasDrifted, hb]
  cases h1 : deepDerive (strMapVal (getLabels dr)) (strMapVal (getLabels ex)) <;>
    cases h2 : deepDerive (strMapVal (getAnnotations dr)) (strMapVal (getAnnotations ex)) <;>
    simp [h1, h2]

theorem hasDrifted_check_order_witness :
    getResourceVersion ⟨[("metadata", KVal.vmap [("resourceVersion", KVal.vstr "1")])]⟩ ≠ "" ∧
    hasDrifted ⟨[]⟩ ⟨[("metadata", KVal.vmap [("resourceVersion", KVal.vstr "1")])]⟩ =
      (!deepDerive
          (strMapVal (getLabels ⟨[("metadata", KVal.vmap [("resourceVersion", KVal.vstr "1")])]⟩))
          (strMapVal (getLabels ⟨[]⟩)) ||
        (!deepDerive
            (strMapVal (getAnnotations ⟨[("metadata", KVal.vmap [("resourceVersion", KVal.vstr "1")])]⟩))
            (strMapVal (getAnnotations ⟨[]⟩)) ||
          (if (lookupStr "spec" (Unstructured.mk []).obj).isSome then
            !deepDerive (topField ⟨[("metadata", KVal.vmap [("resourceVersion", KVal.vstr "1")])]⟩ "spec")
              (topField ⟨[]⟩ "spec")
          else if (lookupStr "webhooks" (Unstructured.mk []).obj).isSome then
            !deepDerive (topField ⟨[("metadata", KVal.vmap [("resourceVersion", KVal.vstr "1")])]⟩ "webhooks")
              (topField ⟨[]⟩ "webhooks")
          else !deepDerive (.vmap (Unstructured.mk [("metadata", KVal.vmap [("resourceVersion", KVal.vstr "1")])]).obj)
            (.vmap (Unstructured.mk []).obj)))) := by
  have h : getResourceVersion ⟨[("metadata", KVal.vmap [("resourceVersion", KVal.vstr "1")])]⟩ ≠ "" := by
    simp [getResourceVersion, lookupStr]
  exact ⟨h, hasDrifted_check_order ⟨[]⟩ _ h⟩

theorem lookupStr_append_some {k : String} {m1 m2 : List (String × KVal)} {w : KVal}
    (h : lookupStr k m1 = some w) : lookupStr k (m1 ++ m2) = some w := by
  induction m1 with
  | nil => cases h
  | cons p r ih =>
    rw [lookupStr] at h
    rw [List.cons_append, lookupStr]
    by_cases hk : (p.1 == k) = true
    · rw [if_pos hk] at h ⊢
      exact h
    · rw [if_neg hk] at h ⊢
      exact ih h

theorem entriesDerive_append {m1 m2 extra : List (String × KVal)}
    (h : entriesDerive m1 m2 = true) : entriesDerive m1 (m2 ++ extra) = true := by
  induction m1 with
  | nil => rw [entriesDerive]
  | cons p r ih =>
    obtain ⟨k, v⟩ := p
    rw [entriesDerive, Bool.and_eq_true] at h
    rw [entriesDerive]
    cases hl : lookupStr k m2 with
    | none =>
      rw [hl] at h
      simp at h
    | some w =>
      rw [hl] at h
      rw [lookupStr_append_some hl, ih h.2]
      simpa using h.1

theorem entriesDerive_false {m1 m2 : List (String × KVal)} {k : String} {v w : KVal}
    (h1 : lookupStr k m1 = some v) (h2 : lookupStr k m2 = some w)
    (hd : deepDerive v w = false) : entriesDerive m1 m2 = false := by
  induction m1 with
  | nil => cases h1
  | cons p r ih =>
    obtain ⟨a, b⟩ := p
    rw [lookupStr] at h1
    by_cases hk : (a == k) = true
    · rw [if_pos hk] at h1
      cases h1
      rw [entriesDerive, (eq_of_beq hk : a = k), h2]
      simp [hd]
    · rw [if_neg hk] at h1
      rw [entriesDerive, ih h1]
      simp

/-- C3 (amended): the deep-derivative comparison `hasDrifted` performs is
directed from desired into existing.  Fields present only on the existing
side never cause drift (a successful comparison survives appending extra
existing entries), and a field present on the desired side causes drift
exactly when its value fails the deep-derivative value comparison against
the existing side — which ignores null and empty desired values rather than
comparing them. -/
theorem deepDerive_directed :
    (∀ m1 m2 extra : List (String × KVal),
      deepDerive (.vmap m1) (.vmap m2) = true →
      deepDerive (.vmap m1) (.vmap (m2 ++ extra)) = true) ∧
    (∀ (m1 m2 : List (String × KVal)) (k : String) (v w : KVal),
      lookupStr k m1 = some v → lookupStr k m2 = some w →
      deepDerive v w = false → deepDerive (.vmap m1) (.vmap m2) = false) := by
  constructor
  · intro m1 m2 extra h
    rw [deepDerive] at h ⊢
    rcases Bool.or_eq_true_iff.mp h with he | hl
    · rw [he]
      rfl
    · rw [Bool.and_eq_true] at hl
      have hlen : m1.length ≤ (m2 ++ extra).length := by
        have := of_decide_eq_true hl.1
        rw [List.length_append]
        omega
      rw [entriesDerive_append hl.2, decide_eq_true hlen]
      simp
  · intro m1 m2 k v w h1 h2 hd
    have hne : m1.isEmpty = false := by
      cases m1 with
      | nil => cases h1
      | cons p r => rfl
    rw [deepDerive, hne, entriesDerive_false h1 h2 hd]
    simp

theorem deepDerive_directed_witness :
    deepDerive (.vmap [("a", KVal.vstr "1")]) (.vmap [("a", KVal.vstr "1")]) = true ∧
    deepDerive (.vmap [("a", KVal.vstr "1")])
      (.vmap ([("a", KVal.vstr "1")] ++ [("b", KVal.vstr "2")])) = true ∧
    lookupStr "a" [("a", KVal.vstr "1")] = some (KVal.vstr "1") ∧
    lookupStr "a" [("a", KVal.vstr "2")] = some (KVal.vstr "2") ∧
    deepDerive (KVal.vstr "1") (KVal.vstr "2") = false ∧
    deepDerive (.vmap [("a", KVal.vstr "1")]) (.vmap [("a", KVal.vstr "2")]) = false := by
  have hsame : deepDerive (.vmap [("a", KVal.vstr "1")]) (.vmap [("a", KVal.vstr "1")]) = true := by
    simp [deepDerive, entriesDerive, lookupStr]
  have hl1 : lookupStr "a" [("a", KVal.vstr "1")] = some (KVal.vstr "1") := by
    simp [lookupStr]
  have hl2 : lookupStr "a" [("a", KVal.vstr "2")] = some (KVal.vstr "2") := by
    simp [lookupStr]
  have hvw : deepDerive (KVal.vstr "1") (KVal.vstr "2") = false := by
    simp [deepDerive]
  exact ⟨hsame, deepDerive_directed.1 _ _ _ hsame, hl1, hl2, hvw,
    deepDerive_directed.2 _ _ "a" _ _ hl1 hl2 hvw⟩

/-- C3 counterexample: a field (`spec.a`) explicitly present on the desired
side whose value (the empty string) differs from the existing side's value
(`"x"`) does not make `hasDrifted` true — `DeepDerivative` ignores empty
desired values — refuting the claim that any differing desired field causes
drift. -/
theorem desired_field_differs_no_drift :
    topField ⟨[("metadata", KVal.vmap [("resourceVersion", KVal.vstr "1")]),
      ("spec", KVal.vmap [("a", KVal.vstr "")])]⟩ "spec" = .vmap [("a", KVal.vstr "")] ∧
    topField ⟨[("metadata", KVal.vmap [("resourceVersion", KVal.vstr "1")]),
      ("spec", KVal.vmap [("a", KVal.vstr "x")])]⟩ "spec" = .vmap [("a", KVal.vstr "x")] ∧
    KVal.vstr "" ≠ KVal.vstr "x" ∧
    hasDrifted
      ⟨[("metadata", KVal.vmap [("resourceVersion", KVal.vstr "1")]),
        ("spec", KVal.vmap [("a", KVal.vstr "x")])]⟩
      ⟨[("metadata", KVal.vmap [("resourceVersion", KVal.vstr "1")]),
        ("spec", KVal.vmap [("a", KVal.vstr "")])]⟩ = false := by
  refine ⟨by simp [topField, lookupStr], by simp [topField, lookupStr], by simp, ?_⟩
  simp [hasDrifted, getResourceVersion, lookupStr, getLabels, getAnnotations, getStrMap,
    strMapVal, deepDerive, entriesDerive, topField, strEntries]

set_option maxHeartbeats 2000000 in
/-- C9: `Diff` never mutates the caller's object.  In the heap replay every
state-changing step lands on one of the explicit deep copies, so the caller's
cell is bit-for-bit unchanged, and the computed outcome coincides with the
functional model `Diff`. -/
theorem diff_heap_frame (h0 : Heap) (a : Nat) (g : Option Unstructured)
    (d : Except GoError Unstructured) (ha : a < h0.next) :
    ((DiffHeap h0 a g d).2).cells a = h0.cells a ∧
    (DiffHeap h0 a g d).1 = Diff (h0.cells a) g d := by
  have hne0 : ¬ (a = h0.next) := by omega
  have hne1 : ¬ (a = h0.next + 1) := by omega
  have hne2 : ¬ (a = h0.next + 2) := by omega
  have hne3 : ¬ (a = h0.next + 3) := by omega
  have hx01 : ¬ (h0.next = h0.next + 1) := by omega
  have hx10 : ¬ (h0.next + 1 = h0.next) := by omega
  have hx02 : ¬ (h0.next = h0.next + 2) := by omega
  have hx12 : ¬ (h0.next + 1 = h0.next + 2) := by omega
  have hx03 : ¬ (h0.next = h0.next + 3) := by omega
  have hx13 : ¬ (h0.next + 1 = h0.next + 3) := by omega
  have hx23 : ¬ (h0.next + 2 = h0.next + 3) := by omega
  have hx32 : ¬ (h0.next + 3 = h0.next + 2) := by omega
  cases d <;> cases g <;>
    simp only [DiffHeap, Diff, halloc, hwrite] <;>
    refine ⟨?_, ?_⟩ <;>
    split_ifs <;>
    simp [hne0, hne1, hne2, hne3, hx01, hx10, hx02, hx12, hx03, hx13, hx23, hx32]

theorem diff_heap_frame_witness :
    0 < (Heap.mk (fun _ => ⟨[("kind", KVal.vstr "ConfigMap")]⟩) 1).next ∧
    ((DiffHeap (Heap.mk (fun _ => ⟨[("kind", KVal.vstr "ConfigMap")]⟩) 1) 0 none
        (.ok ⟨[]⟩)).2).cells 0 =
      (Heap.mk (fun _ => ⟨[("kind", KVal.vstr "ConfigMap")]⟩) 1).cells 0 := by
  exact ⟨Nat.zero_lt_one,
    (diff_heap_frame (Heap.mk (fun _ => ⟨[("kind", KVal.vstr "ConfigMap")]⟩) 1) 0 none
      (.ok ⟨[]⟩) Nat.zero_lt_one).1⟩

theorem lookupStr_mapAtKey_self (k : String) (f : KVal → KVal) (m : List (String × KVal)) :
    lookupStr k (mapAtKey k f m) = (lookupStr k m).map f := by
  induction m with
  | nil => rfl
  | cons p r ih =>
    rw [mapAtKey, List.map_cons]
    by_cases hk : (p.1 == k) = true
    · rw [if_pos hk, lookupStr, lookupStr]
      simp only [hk, if_pos]
      rfl
    · rw [if_neg hk, lookupStr, lookupStr, if_neg hk, if_neg hk]
      exact ih

theorem lookupStr_mapAtKey_ne {k k' : String} (h : ¬ k' = k) (f : KVal → KVal)
    (m : List (String × KVal)) :
    lookupStr k' (mapAtKey k f m) = lookupStr k' m := by
  induction m with
  | nil => rfl
  | cons p r ih =>
    rw [mapAtKey, List.map_cons]
    by_cases hk : (p.1 == k) = true
    · have hne : (p.1 == k') = false := by
        rw [beq_eq_false_iff_ne]
        intro he
        exact h (he ▸ eq_of_beq hk)
      rw [if_pos hk, lookupStr, lookupStr]
      simp only [hne, Bool.false_eq_true, if_false]
      exact ih
    · rw [if_neg hk, lookupStr, lookupStr]
      by_cases hk' : (p.1 == k') = true
      · rw [if_pos hk', if_pos hk']
      · rw [if_neg hk', if_neg hk']
        exact ih

theorem getKind_removeManagedFields (u : Unstructured) :
    getKind (removeManagedFields u) = getKind u := by
  rw [getKind, getKind, removeManagedFields,
    lookupStr_mapAtKey_ne (by simp : ¬ "kind" = "metadata")]

theorem dataIsMap_removeManagedFields (u : Unstructured) :
    dataIsMap (removeManagedFields u) = dataIsMap u := by
  rw [dataIsMap, dataIsMap, removeManagedFields,
    lookupStr_mapAtKey_ne (by simp : ¬ "data" = "metadata")]

theorem allDataMasked_maskSecret (u : Unstructured) (mask : String)
    (h : dataIsMap u = true) : allDataMasked (maskSecret u mask) mask = true := by
  rw [dataIsMap] at h
  rw [allDataMasked, maskSecret, lookupStr_mapAtKey_self]
  cases hd : lookupStr "data" u.obj with
  | none => rfl
  | some v =>
    rw [hd] at h
    cases v with
    | vmap dm =>
      simp [List.all_map]
    | vnull => cases h
    | vbool b => cases h
    | vint n => cases h
    | vstr s => cases h
    | vlist xs => cases h

/-- The exact `ok` outcome of `Diff` on the drifted-Secret path. -/
theorem diff_secret_eq (object : Unstructured) (g : Option Unstructured)
    (dro : Unstructured) (hrv : getResourceVersion dro ≠ "")
    (hdrift : hasDrifted (g.getD object) dro = true)
    (hkind : getKind dro = "Secret") :
    Diff object g (.ok dro) = .ok
      { changeSetEntry object .configured with
        diff := some (maskSecret (removeManagedFields (g.getD object)) "*****",
          maskSecret (removeManagedFields dro) "******") } := by
  have hb : (getResourceVersion dro == "") = false := beq_eq_false_iff_ne.mpr hrv
  have hk2 : (getKind (removeManagedFields dro) == "Secret") = true := by
    rw [getKind_removeManagedFields, hkind]
    rfl
  cases g with
  | none =>
    rw [Option.getD_none] at hdrift
    simp [Diff, hb, hdrift, hk2]
  | some live =>
    rw [Option.getD_some] at hdrift
    simp [Diff, hb, hdrift, hk2]

/-- C5 (amended): `Diff` masks every Secret `data` value with a mask token
before the diff is rendered, so no literal data value reaches the diff text;
`validationError` protects Secret data on the non-not-found failure path by
omitting the underlying error entirely (its result is independent of the
error content) — but on the not-found path it wraps the error verbatim for
every kind, including Secrets. -/
theorem secret_masking_amended :
    (∀ (object : Unstructured) (g : Option Unstructured) (dro : Unstructured),
      getResourceVersion dro ≠ "" →
      hasDrifted (g.getD object) dro = true →
      getKind dro = "Secret" →
      dataIsMap (g.getD object) = true →
      dataIsMap dro = true →
      ∃ cse, Diff object g (.ok dro) = .ok cse ∧
        ∃ eSide dSide, cse.diff = some (eSide, dSide) ∧
          allDataMasked eSide "*****" = true ∧
          allDataMasked dSide "******" = true) ∧
    (∀ (object : Unstructured) (e1 e2 : GoError),
      getKind object = "Secret" → e1.isNotFound = false → e2.isNotFound = false →
      validationError object e1 = validationError object e2) := by
  constructor
  · intro object g dro hrv hdrift hkind hde hdd
    refine ⟨_, diff_secret_eq object g dro hrv hdrift hkind, _, _, rfl, ?_, ?_⟩
    · exact allDataMasked_maskSecret _ _ (by rw [dataIsMap_removeManagedFields]; exact hde)
    · exact allDataMasked_maskSecret _ _ (by rw [dataIsMap_removeManagedFields]; exact hdd)
  · intro object e1 e2 hk h1 h2
    rw [validationError, validationError, h1, h2]
    simp [hk]

theorem secret_masking_amended_witness :
    getResourceVersion ⟨[("kind", KVal.vstr "Secret"),
      ("metadata", KVal.vmap [("resourceVersion", KVal.vstr "1")]),
      ("data", KVal.vmap [("p", KVal.vstr "s3cr3t")])]⟩ ≠ "" ∧
    hasDrifted ((none : Option Unstructured).getD ⟨[]⟩)
      ⟨[("kind", KVal.vstr "Secret"),
        ("metadata", KVal.vmap [("resourceVersion", KVal.vstr "1")]),
        ("data", KVal.vmap [("p", KVal.vstr "s3cr3t")])]⟩ = true ∧
    (∃ cse, Diff ⟨[]⟩ none (.ok ⟨[("kind", KVal.vstr "Secret"),
        ("metadata", KVal.vmap [("resourceVersion", KVal.vstr "1")]),
        ("data", KVal.vmap [("p", KVal.vstr "s3cr3t")])]⟩) = .ok cse ∧
      ∃ eSide dSide, cse.diff = some (eSide, dSide) ∧
        allDataMasked eSide "*****" = true ∧
        allDataMasked dSide "******" = true) ∧
    validationError ⟨[("kind", KVal.vstr "Secret")]⟩ ⟨false, "boom s3cr3t"⟩ =
      validationError ⟨[("kind", KVal.vstr "Secret")]⟩ ⟨false, "other"⟩ := by
  have hrv : getResourceVersion ⟨[("kind", KVal.vstr "Secret"),
      ("metadata", KVal.vmap [("resourceVersion", KVal.vstr "1")]),
      ("data", KVal.vmap [("p", KVal.vstr "s3cr3t")])]⟩ ≠ "" := by
    simp [getResourceVersion, lookupStr]
  have hdrift : hasDrifted ((none : Option Unstructured).getD ⟨[]⟩)
      ⟨[("kind", KVal.vstr "Secret"),
        ("metadata", KVal.vmap [("resourceVersion", KVal.vstr "1")]),
        ("data", KVal.vmap [("p", KVal.vstr "s3cr3t")])]⟩ = true := by
    simp [hasDrifted, getResourceVersion, lookupStr, getLabels, getAnnotations, getStrMap,
      strMapVal, deepDerive, entriesDerive, topField, strEntries]
  have hkind : getKind ⟨[("kind", KVal.vstr "Secret"),
      ("metadata", KVal.vmap [("resourceVersion", KVal.vstr "1")]),
      ("data", KVal.vmap [("p", KVal.vstr "s3cr3t")])]⟩ = "Secret" := by
    simp [getKind, lookupStr]
  have hde : dataIsMap ((none : Option Unstructured).getD ⟨[]⟩) = true := by
    simp [dataIsMap, lookupStr]
  have hdd : dataIsMap ⟨[("kind", KVal.vstr "Secret"),
      ("metadata", KVal.vmap [("resourceVersion", KVal.vstr "1")]),
      ("data", KVal.vmap [("p", KVal.vstr "s3cr3t")])]⟩ = true := by
    simp [dataIsMap, lookupStr]
  exact ⟨hrv, hdrift,
    secret_masking_amended.1 ⟨[]⟩ none _ hrv hdrift hkind hde hdd,
    secret_masking_amended.2 ⟨[("kind", KVal.vstr "Secret")]⟩ ⟨false, "boom s3cr3t"⟩
      ⟨false, "other"⟩ (by simp [getKind, lookupStr]) rfl rfl⟩

/-- C5 counterexample: on the not-found dry-run failure path,
`validationError` wraps the underlying error verbatim even when the object is
a Secret — no mask token is applied on this path — so a sensitive value
carried in the error text appears in clear form in `validationError`'s
result. -/
theorem validationError_notfound_no_masking :
    getKind ⟨[("kind", KVal.vstr "Secret"),
      ("metadata", KVal.vmap [("name", KVal.vstr "s"), ("namespace", KVal.vstr "ns")]),
      ("data", KVal.vmap [("p", KVal.vstr "s3cr3t")])]⟩ = "Secret" ∧
    lookupStr "data" [("kind", KVal.vstr "Secret"),
      ("metadata", KVal.vmap [("name", KVal.vstr "s"), ("namespace", KVal.vstr "ns")]),
      ("data", KVal.vmap [("p", KVal.vstr "s3cr3t")])] =
      some (.vmap [("p", KVal.vstr "s3cr3t")]) ∧
    textHas "s3cr3t".toList
      (validationError ⟨[("kind", KVal.vstr "Secret"),
        ("metadata", KVal.vmap [("name", KVal.vstr "s"), ("namespace", KVal.vstr "ns")]),
        ("data", KVal.vmap [("p", KVal.vstr "s3cr3t")])]⟩
        ⟨true, "secrets s3cr3t is forbidden"⟩).toList = true := by
  refine ⟨by simp [getKind, lookupStr], by simp [lookupStr], ?_⟩
  decide

/-- C6: on the drifted-Secret path `Diff` masks the existing side with one
token and the desired (dry-run) side with a different token, so the two
masked sides can never spuriously coincide: every masked data value of the
two sides differs, even when the underlying values were identical. -/
theorem secret_mask_tokens_differ (object : Unstructured) (g : Option Unstructured)
    (dro : Unstructured) (hrv : getResourceVersion dro ≠ "")
    (hdrift : hasDrifted (g.getD object) dro = true)
    (hkind : getKind dro = "Secret")
    (hde : dataIsMap (g.getD object) = true) (hdd : dataIsMap dro = true) :
    Diff object g (.ok dro) = .ok
      { changeSetEntry object .configured with
        diff := some (maskSecret (removeManagedFields (g.getD object)) "*****",
          maskSecret (removeManagedFields dro) "******") } ∧
    ("*****" : String) ≠ "******" ∧
    allDataMasked (maskSecret (removeManagedFields (g.getD object)) "*****") "*****" = true ∧
    allDataMasked (maskSecret (removeManagedFields dro) "******") "******" = true := by
  refine ⟨diff_secret_eq object g dro hrv hdrift hkind, by decide, ?_, ?_⟩
  · exact allDataMasked_maskSecret _ _ (by rw [dataIsMap_removeManagedFields]; exact hde)
  · exact allDataMasked_maskSecret _ _ (by rw [dataIsMap_removeManagedFields]; exact hdd)

theorem secret_mask_tokens_differ_witness :
    Diff ⟨[]⟩ none (.ok ⟨[("kind", KVal.vstr "Secret"),
        ("metadata", KVal.vmap [("resourceVersion", KVal.vstr "1")]),
        ("data", KVal.vmap [("p", KVal.vstr "s3cr3t")])]⟩) = .ok
      { changeSetEntry ⟨[]⟩ .configured with
        diff := some
          (maskSecret (removeManagedFields (((none : Option Unstructured)).getD ⟨[]⟩)) "*****",
           maskSecret (removeManagedFields ⟨[("kind", KVal.vstr "Secret"),
             ("metadata", KVal.vmap [("resourceVersion", KVal.vstr "1")]),
             ("data", KVal.vmap [("p", KVal.vstr "s3cr3t")])]⟩) "******") } ∧
    ("*****" : String) ≠ "******" := by
  have hrv : getResourceVersion ⟨[("kind", KVal.vstr "Secret"),
      ("metadata", KVal.vmap [("resourceVersion", KVal.vstr "1")]),
      ("data", KVal.vmap [("p", KVal.vstr "s3cr3t")])]⟩ ≠ "" := by
    simp [getResourceVersion, lookupStr]
  have hdrift : hasDrifted ((none : Option Unstructured).getD ⟨[]⟩)
      ⟨[("kind", KVal.vstr "Secret"),
        ("metadata", KVal.vmap [("resourceVersion", KVal.vstr "1")]),
        ("data", KVal.vmap [("p", KVal.vstr "s3cr3t")])]⟩ = true := by
    simp [hasDrifted, getResourceVersion, lookupStr, getLabels, getAnnotations, getStrMap,
      strMapVal, deepDerive, entriesDerive, topField, strEntries]
  have hkind : getKind ⟨[("kind", KVal.vstr "Secret"),
      ("metadata", KVal.vmap [("resourceVersion", KVal.vstr "1")]),
      ("data", KVal.vmap [("p", KVal.vstr "s3cr3t")])]⟩ = "Secret" := by
    simp [getKind, lookupStr]
  have hde : dataIsMap ((none : Option Unstructured).getD ⟨[]⟩) = true := by
    simp [dataIsMap, lookupStr]
  have hdd : dataIsMap ⟨[("kind", KVal.vstr "Secret"),
      ("metadata", KVal.vmap [("resourceVersion", KVal.vstr "1")]),
      ("data", KVal.vmap [("p", KVal.vstr "s3cr3t")])]⟩ = true := by
    simp [dataIsMap, lookupStr]
  exact ⟨(secret_mask_tokens_differ ⟨[]⟩ none _ hrv hdrift hkind hde hdd).1,
    (secret_mask_tokens_differ ⟨[]⟩ none _ hrv hdrift hkind hde hdd).2.1⟩

/-! ### Permutation insensitivity of `hasDrifted` (C7)

A Go map has no key order; our association lists do, so order insensitivity
is stated as: permuting the entry list of a label or annotation map (on
either side) never changes `hasDrifted`.  The desired side needs no extra
assumption; lookups into the existing side need its keys pairwise
distinct — which every Go map guarantees. -/

theorem perm_all {α : Type} {l₁ l₂ : List α} (h : l₁.Perm l₂) (f : α → Bool) :
    l₁.all f = l₂.all f := by
  cases hb : l₂.all f
  · rw [List.all_eq_false] at hb ⊢
    obtain ⟨x, hx, hfx⟩ := hb
    exact ⟨x, h.mem_iff.mpr hx, hfx⟩
  · rw [List.all_eq_true] at hb ⊢
    exact fun x hx => hb x (h.mem_iff.mp hx)

theorem perm_isEmpty {α : Type} {l₁ l₂ : List α} (h : l₁.Perm l₂) :
    l₁.isEmpty = l₂.isEmpty := by
  cases l₁ with
  | nil =>
    cases l₂ with
    | nil => rfl
    | cons b bs => cases h.length_eq
  | cons a as =>
    cases l₂ with
    | nil => cases h.length_eq
    | cons b bs => rfl

theorem all_congr_mem {α : Type} {l : List α} {f g : α → Bool}
    (h : ∀ a ∈ l, f a = g a) : l.all f = l.all g := by
  induction l with
  | nil => rfl
  | cons a r ih =>
    rw [List.all_cons, List.all_cons, h a (List.mem_cons_self a r),
      ih fun b hb => h b (List.mem_cons_of_mem a hb)]

theorem entriesDerive_eq_all (m1 m2 : List (String × KVal)) :
    entriesDerive m1 m2 = m1.all fun p =>
      match lookupStr p.1 m2 with
      | some w => deepDerive p.2 w
      | none => false := by
  induction m1 with
  | nil => rw [entriesDerive, List.all_nil]
  | cons p r ih =>
    obtain ⟨k, v⟩ := p
    rw [entriesDerive, List.all_cons, ih]

/-- Permuting a desired-side map is invisible to `DeepDerivative`. -/
theorem deepDerive_perm_left {m1 m1' : List (String × KVal)} (h : m1.Perm m1') :
    ∀ y, deepDerive (.vmap m1) y = deepDerive (.vmap m1') y := by
  intro y
  cases y with
  | vmap m2 =>
    rw [deepDerive, deepDerive, entriesDerive_eq_all, entriesDerive_eq_all,
      perm_all h, perm_isEmpty h, h.length_eq]
  | vnull => simp [deepDerive]
  | vbool b => simp [deepDerive]
  | vint n => simp [deepDerive]
  | vstr s => simp [deepDerive]
  | vlist xs => simp [deepDerive]

theorem nodupKeysB_perm {m m' : List (String × KVal)} (h : m.Perm m')
    (hn : nodupKeysB m = true) : nodupKeysB m' = true := by
  rw [nodupKeysB_eq_true_iff] at hn ⊢
  exact (h.map Prod.fst).nodup_iff.mp hn

theorem lookupStr_perm {m m' : List (String × KVal)} (h : m.Perm m') :
    nodupKeysB m = true → ∀ k, lookupStr k m = lookupStr k m' := by
  induction h with
  | nil => exact fun _ _ => rfl
  | cons x hrest ih =>
    intro hn k
    rw [nodupKeysB, Bool.and_eq_true] at hn
    rw [lookupStr, lookupStr]
    by_cases hk : (x.1 == k) = true
    · rw [if_pos hk, if_pos hk]
    · rw [if_neg hk, if_neg hk]
      exact ih hn.2 k
  | swap x y l =>
    intro hn k
    rw [nodupKeysB, Bool.and_eq_true, nodupKeysB, Bool.and_eq_true, keyMem,
      Bool.not_eq_true', Bool.or_eq_false_iff] at hn
    simp only [lookupStr]
    cases hx : (x.1 == k) <;> cases hy : (y.1 == k) <;> simp [hx, hy]
    have hxy : (x.1 == y.1) = true := by
      rw [eq_of_beq hx, eq_of_beq hy]
      exact beq_self_eq_true k
    rw [hn.1.1] at hxy
    exact absurd hxy (by decide)
  | trans h₁ h₂ ih₁ ih₂ =>
    intro hn k
    rw [ih₁ hn k, ih₂ (nodupKeysB_perm h₁ hn) k]

/-- Permuting an existing-side map with pairwise-distinct keys is invisible
to `DeepDerivative`. -/
theorem deepDerive_perm_right {m2 m2' : List (String × KVal)} (h : m2.Perm m2')
    (hn : nodupKeysB m2 = true) :
    ∀ x, deepDerive x (.vmap m2) = deepDerive x (.vmap m2') := by
  intro x
  cases x with
  | vmap m1 =>
    rw [deepDerive, deepDerive, entriesDerive_eq_all, entriesDerive_eq_all,
      h.length_eq]
    have hc := all_congr_mem (l := m1)
      (f := fun p => match lookupStr p.1 m2 with
        | some w => deepDerive p.2 w
        | none => false)
      (g := fun p => match lookupStr p.1 m2' with
        | some w => deepDerive p.2 w
        | none => false)
      (fun p _ => by
        show (match lookupStr p.1 m2 with
          | some w => deepDerive p.2 w
          | none => false) =
          (match lookupStr p.1 m2' with
          | some w => deepDerive p.2 w
          | none => false)
        rw [lookupStr_perm h hn p.1])
    rw [hc]
  | vnull => simp [deepDerive]
  | vbool b => simp [deepDerive]
  | vint n => simp [deepDerive]
  | vstr s => simp [deepDerive]
  | vlist xs => simp [deepDerive]

/-- Replacing map entry values by desired-side-indistinguishable values (keys
kept) is invisible to `DeepDerivative` on the desired side. -/
theorem deepDerive_pointwise_left {m m' : List (String × KVal)}
    (h : List.Forall₂
      (fun p q => p.1 = q.1 ∧ ∀ y, deepDerive p.2 y = deepDerive q.2 y) m m') :
    ∀ y, deepDerive (.vmap m) y = deepDerive (.vmap m') y := by
  intro y
  cases y with
  | vmap m2 =>
    have hent : entriesDerive m m2 = entriesDerive m' m2 := by
      induction h with
      | nil => rfl
      | cons hpq hrest ih =>
        rename_i p q r r'
        obtain ⟨a, b⟩ := p
        obtain ⟨c, d⟩ := q
        obtain ⟨hk, hv⟩ := hpq
        rw [entriesDerive, entriesDerive, ih]
        simp only at hk
        rw [hk]
        cases hl : lookupStr c m2 with
        | none => rfl
        | some w =>
          have hv' : deepDerive b w = deepDerive d w := hv w
          show (deepDerive b w && entriesDerive r' m2) =
            (deepDerive d w && entriesDerive r' m2)
          rw [hv']
    have hlen : m.length = m'.length := h.length_eq
    have hie : m.isEmpty = m'.isEmpty := by
      cases m with
      | nil => cases h; rfl
      | cons p r =>
        cases m' with
        | nil => cases h
        | cons q r' => rfl
    rw [deepDerive, deepDerive, hent, hlen, hie]
  | vnull => simp [deepDerive]
  | vbool b => simp [deepDerive]
  | vint n => simp [deepDerive]
  | vstr s => simp [deepDerive]
  | vlist xs => simp [deepDerive]

theorem lookupStr_forall₂ {m m' : List (String × KVal)}
    (h : List.Forall₂
      (fun p q => p.1 = q.1 ∧ ∀ x, deepDerive x p.2 = deepDerive x q.2) m m')
    (k : String) :
    (lookupStr k m = none ∧ lookupStr k m' = none) ∨
    (∃ w w', lookupStr k m = some w ∧ lookupStr k m' = some w' ∧
      ∀ x, deepDerive x w = deepDerive x w') := by
  induction h with
  | nil => exact Or.inl ⟨rfl, rfl⟩
  | cons hpq hrest ih =>
    rename_i p q r r'
    obtain ⟨hk, hv⟩ := hpq
    rw [lookupStr, lookupStr, hk]
    by_cases hc : (q.1 == k) = true
    · rw [if_pos hc, if_pos hc]
      exact Or.inr ⟨p.2, q.2, rfl, rfl, hv⟩
    · rw [if_neg hc, if_neg hc]
      exact ih

/-- Replacing map entry values by existing-side-indistinguishable values
(keys kept) is invisible to `DeepDerivative` on the existing side. -/
theorem deepDerive_pointwise_right {m m' : List (String × KVal)}
    (h : List.Forall₂
      (fun p q => p.1 = q.1 ∧ ∀ x, deepDerive x p.2 = deepDerive x q.2) m m') :
    ∀ x, deepDerive x (.vmap m) = deepDerive x (.vmap m') := by
  intro x
  cases x with
  | vmap m1 =>
    have hent : entriesDerive m1 m = entriesDerive m1 m' := by
      induction m1 with
      | nil => rw [entriesDerive, entriesDerive]
      | cons p r ih =>
        obtain ⟨a, b⟩ := p
        rw [entriesDerive, entriesDerive, ih]
        rcases lookupStr_forall₂ h a with ⟨h1, h2⟩ | ⟨w, w', h1, h2, hv⟩
        · rw [h1, h2]
        · rw [h1, h2]
          simp only
          rw [hv b]
    rw [deepDerive, deepDerive, hent, h.length_eq]
  | vnull => simp [deepDerive]
  | vbool b => simp [deepDerive]
  | vint n => simp [deepDerive]
  | vstr s => simp [deepDerive]
  | vlist xs => simp [deepDerive]

/-- `mapAtKey` relates a list entrywise to its image: untouched entries are
equal, entries at key `k` are related by what `f` does to them. -/
theorem forall₂_mapAtKey {REL : KVal → KVal → Prop} (hrefl : ∀ v, REL v v)
    {k : String} {f : KVal → KVal} {m : List (String × KVal)}
    (hf : ∀ p ∈ m, p.1 = k → REL p.2 (f p.2)) :
    List.Forall₂ (fun p q => p.1 = q.1 ∧ REL p.2 q.2) m (mapAtKey k f m) := by
  induction m with
  | nil => exact List.Forall₂.nil
  | cons p r ih =>
    rw [mapAtKey, List.map_cons]
    have ihr := ih fun q hq hqk => hf q (List.mem_cons_of_mem p hq) hqk
    by_cases hk : (p.1 == k) = true
    · rw [if_pos hk]
      exact List.Forall₂.cons
        ⟨rfl, hf p (List.mem_cons_self p r) (eq_of_beq hk)⟩ ihr
    · rw [if_neg hk]
      exact List.Forall₂.cons ⟨rfl, hrefl p.2⟩ ihr

theorem mem_key_eq_of_nodup {m : List (String × KVal)} {k : String} {v : KVal}
    (hn : nodupKeysB m = true) (hl : lookupStr k m = some v) :
    ∀ p ∈ m, p.1 = k → p.2 = v := by
  intro p hp hpk
  have hmem : (k, p.2) ∈ m := by
    have : p = (k, p.2) := by
      cases p
      simp only at hpk
      rw [hpk]
    rw [← this]
    exact hp
  have := lookupStr_nodup_mem hn hmem
  rw [hl] at this
  cases this
  rfl

theorem strEntries_perm {lm lm' : List (String × KVal)} (h : lm.Perm lm') :
    (strEntries lm).Perm (strEntries lm') := by
  rw [strEntries, strEntries,
    perm_all h fun p => match p.2 with | KVal.vstr _ => true | _ => false]
  split
  · exact h.filterMap _
  · exact List.Perm.refl []

theorem setNested2_meta {u : Unstructured} {meta : List (String × KVal)}
    (f : String) (v : KVal)
    (hm : lookupStr "metadata" u.obj = some (.vmap meta)) :
    lookupStr "metadata" (setNested2 u "metadata" f v).obj =
      some (.vmap (mapAtKey f (fun _ => v) meta)) := by
  rw [setNested2, lookupStr_mapAtKey_self, hm]
  rfl

theorem setNested2_other {u : Unstructured} (k1 f : String) (v : KVal)
    {k' : String} (h : ¬ k' = k1) :
    lookupStr k' (setNested2 u k1 f v).obj = lookupStr k' u.obj := by
  simp only [setNested2]
  exact lookupStr_mapAtKey_ne h _ _

theorem getRV_setNested2 {u : Unstructured} {meta : List (String × KVal)}
    {f : String} (v : KVal)
    (hm : lookupStr "metadata" u.obj = some (.vmap meta))
    (hf : ¬ ("resourceVersion" : String) = f) :
    getResourceVersion (setNested2 u "metadata" f v) = getResourceVersion u := by
  simp only [getResourceVersion, setNested2_meta f v hm, hm,
    lookupStr_mapAtKey_ne hf]

theorem getStrMap_setNested2_perm {u : Unstructured} {meta lm lm' : List (String × KVal)}
    {f : String} (g : String)
    (hm : lookupStr "metadata" u.obj = some (.vmap meta))
    (hl : lookupStr f meta = some (.vmap lm))
    (hperm : lm.Perm lm') :
    (getStrMap (setNested2 u "metadata" f (.vmap lm')) g).Perm (getStrMap u g) := by
  simp only [getStrMap, setNested2_meta f (.vmap lm') hm, hm]
  by_cases hg : g = f
  · rw [hg, lookupStr_mapAtKey_self, hl]
    exact (strEntries_perm hperm).symm
  · rw [lookupStr_mapAtKey_ne hg]

theorem getStrMap_eq {u : Unstructured} {meta lm : List (String × KVal)} {f : String}
    (hm : lookupStr "metadata" u.obj = some (.vmap meta))
    (hl : lookupStr f meta = some (.vmap lm)) :
    getStrMap u f = strEntries lm := by
  simp only [getStrMap, hm, hl]

theorem getStrMap_setNested2_self {u : Unstructured} {meta lm : List (String × KVal)}
    {f : String} (v : List (String × KVal))
    (hm : lookupStr "metadata" u.obj = some (.vmap meta))
    (hl : lookupStr f meta = some (.vmap lm)) :
    getStrMap (setNested2 u "metadata" f (.vmap v)) f = strEntries v := by
  simp only [getStrMap, setNested2_meta f (.vmap v) hm, lookupStr_mapAtKey_self, hl,
    Option.map_some']

theorem getStrMap_setNested2_ne {u : Unstructured} {meta : List (String × KVal)}
    {f : String} (g : String) (v : KVal)
    (hm : lookupStr "metadata" u.obj = some (.vmap meta))
    (hg : ¬ g = f) :
    getStrMap (setNested2 u "metadata" f v) g = getStrMap u g := by
  simp only [getStrMap, setNested2_meta f v hm, hm, lookupStr_mapAtKey_ne hg]

theorem nodupKeysB_strMapVal {lm : List (String × KVal)} (hn : nodupKeysB lm = true) :
    nodupKeysB ((strEntries lm).map fun p => (p.1, KVal.vstr p.2)) = true := by
  rw [nodupKeysB_eq_true_iff]
  have hkeys : (((strEntries lm).map fun p => (p.1, KVal.vstr p.2)).map Prod.fst) =
      (strEntries lm).map Prod.fst := by
    simp
  rw [hkeys]
  exact (nodupKeysB_eq_true_iff.mp hn).sublist (strEntries_keys_sublist lm)

/-- Permuting one nested string map leaves the whole desired-side object body
indistinguishable to `DeepDerivative`. -/
theorem setNested2_body_left {u : Unstructured} {meta lm lm' : List (String × KVal)}
    {f : String}
    (hnobj : nodupKeysB u.obj = true) (hnmeta : nodupKeysB meta = true)
    (hm : lookupStr "metadata" u.obj = some (.vmap meta))
    (hl : lookupStr f meta = some (.vmap lm))
    (hperm : lm.Perm lm') :
    ∀ y, deepDerive (.vmap (setNested2 u "metadata" f (.vmap lm')).obj) y =
      deepDerive (.vmap u.obj) y := by
  have hinner : ∀ q ∈ meta, q.1 = f →
      ∀ y, deepDerive q.2 y = deepDerive ((fun _ => KVal.vmap lm') q.2) y := by
    intro q hq hqf
    rw [mem_key_eq_of_nodup hnmeta hl q hq hqf]
    exact deepDerive_perm_left hperm
  have houter : ∀ p ∈ u.obj, p.1 = "metadata" →
      ∀ y, deepDerive p.2 y =
        deepDerive ((fun w => match w with
          | KVal.vmap m => KVal.vmap (mapAtKey f (fun _ => KVal.vmap lm') m)
          | w => w) p.2) y := by
    intro p hp hpk
    rw [mem_key_eq_of_nodup hnobj hm p hp hpk]
    exact deepDerive_pointwise_left
      (@forall₂_mapAtKey (fun a b => ∀ y, deepDerive a y = deepDerive b y)
        (fun v y => rfl) f (fun _ => KVal.vmap lm') meta hinner)
  intro y
  exact (deepDerive_pointwise_left
    (@forall₂_mapAtKey (fun a b => ∀ y, deepDerive a y = deepDerive b y)
      (fun v y => rfl) "metadata"
      (fun w => match w with
        | KVal.vmap m => KVal.vmap (mapAtKey f (fun _ => KVal.vmap lm') m)
        | w => w) u.obj houter) y).symm

/-- Permuting one nested string map with pairwise-distinct keys leaves the
whole existing-side object body indistinguishable to `DeepDerivative`. -/
theorem setNested2_body_right {u : Unstructured} {meta lm lm' : List (String × KVal)}
    {f : String}
    (hnobj : nodupKeysB u.obj = true) (hnmeta : nodupKeysB meta = true)
    (hnlm : nodupKeysB lm = true)
    (hm : lookupStr "metadata" u.obj = some (.vmap meta))
    (hl : lookupStr f meta = some (.vmap lm))
    (hperm : lm.Perm lm') :
    ∀ x, deepDerive x (.vmap (setNested2 u "metadata" f (.vmap lm')).obj) =
      deepDerive x (.vmap u.obj) := by
  have hinner : ∀ q ∈ meta, q.1 = f →
      ∀ x, deepDerive x q.2 = deepDerive x ((fun _ => KVal.vmap lm') q.2) := by
    intro q hq hqf
    rw [mem_key_eq_of_nodup hnmeta hl q hq hqf]
    exact deepDerive_perm_right hperm hnlm
  have houter : ∀ p ∈ u.obj, p.1 = "metadata" →
      ∀ x, deepDerive x p.2 =
        deepDerive x ((fun w => match w with
          | KVal.vmap m => KVal.vmap (mapAtKey f (fun _ => KVal.vmap lm') m)
          | w => w) p.2) := by
    intro p hp hpk
    rw [mem_key_eq_of_nodup hnobj hm p hp hpk]
    exact deepDerive_pointwise_right
      (@forall₂_mapAtKey (fun a b => ∀ x, deepDerive x a = deepDerive x b)
        (fun v x => rfl) f (fun _ => KVal.vmap lm') meta hinner)
  intro x
  exact (deepDerive_pointwise_right
    (@forall₂_mapAtKey (fun a b => ∀ x, deepDerive x a = deepDerive x b)
      (fun v x => rfl) "metadata"
      (fun w => match w with
        | KVal.vmap m => KVal.vmap (mapAtKey f (fun _ => KVal.vmap lm') m)
        | w => w) u.obj houter) x).symm

theorem strMap_cmp_setNested2_left {u : Unstructured}
    {meta lm lm' : List (String × KVal)} {f : String} (g : String)
    (hm : lookupStr "metadata" u.obj = some (.vmap meta))
    (hl : lookupStr f meta = some (.vmap lm))
    (hperm : lm.Perm lm') :
    ∀ y, deepDerive (strMapVal (getStrMap (setNested2 u "metadata" f (.vmap lm')) g)) y =
      deepDerive (strMapVal (getStrMap u g)) y := by
  intro y
  exact deepDerive_perm_left
    ((getStrMap_setNested2_perm g hm hl hperm).map fun p => (p.1, KVal.vstr p.2)) y

theorem strMap_cmp_setNested2_right {u : Unstructured}
    {meta lm lm' : List (String × KVal)} {f : String} (g : String)
    (hnlm : nodupKeysB lm = true)
    (hm : lookupStr "metadata" u.obj = some (.vmap meta))
    (hl : lookupStr f meta = some (.vmap lm))
    (hperm : lm.Perm lm') :
    ∀ x, deepDerive x (strMapVal (getStrMap (setNested2 u "metadata" f (.vmap lm')) g)) =
      deepDerive x (strMapVal (getStrMap u g)) := by
  by_cases hg : g = f
  · subst hg
    rw [getStrMap_setNested2_self lm' hm hl, getStrMap_eq hm hl]
    have hnlm2 : nodupKeysB lm' = true := nodupKeysB_perm hperm hnlm
    intro x
    exact deepDerive_perm_right
      (((strEntries_perm hperm).symm).map fun p => (p.1, KVal.vstr p.2))
      (nodupKeysB_strMapVal hnlm2) x
  · rw [getStrMap_setNested2_ne g (.vmap lm') hm hg]
    intro x
    rfl

/-- Dry-run-side half of C7. -/
theorem hasDrifted_perm_dryrun (ex dr : Unstructured) (f : String)
    (meta lm lm' : List (String × KVal))
    (hf : f = "labels" ∨ f = "annotations")
    (hnobj : nodupKeysB dr.obj = true) (hnmeta : nodupKeysB meta = true)
    (hm : lookupStr "metadata" dr.obj = some (.vmap meta))
    (hl : lookupStr f meta = some (.vmap lm))
    (hperm : lm.Perm lm') :
    hasDrifted ex (setNested2 dr "metadata" f (.vmap lm')) = hasDrifted ex dr := by
  have hfrv : ¬ ("resourceVersion" : String) = f := by
    rcases hf with rfl | rfl <;> simp
  have hrv := getRV_setNested2 (.vmap lm') hm hfrv
  have hlabD := strMap_cmp_setNested2_left "labels" hm hl hperm
  have hannD := strMap_cmp_setNested2_left "annotations" hm hl hperm
  have hspec : topField (setNested2 dr "metadata" f (.vmap lm')) "spec" =
      topField dr "spec" := by
    rw [topField, topField, setNested2_other _ _ _ (by simp)]
  have hweb : topField (setNested2 dr "metadata" f (.vmap lm')) "webhooks" =
      topField dr "webhooks" := by
    rw [topField, topField, setNested2_other _ _ _ (by simp)]
  have hbody := setNested2_body_left hnobj hnmeta hm hl hperm
  rw [hasDrifted, hasDrifted]
  simp only [getLabels, getAnnotations, hrv, hlabD, hannD, hspec, hweb, hbody]

/-- Existing-side half of C7. -/
theorem hasDrifted_perm_existing (ex dr : Unstructured) (f : String)
    (meta lm lm' : List (String × KVal))
    (_hf : f = "labels" ∨ f = "annotations")
    (hnobj : nodupKeysB ex.obj = true) (hnmeta : nodupKeysB meta = true)
    (hnlm : nodupKeysB lm = true)
    (hm : lookupStr "metadata" ex.obj = some (.vmap meta))
    (hl : lookupStr f meta = some (.vmap lm))
    (hperm : lm.Perm lm') :
    hasDrifted (setNested2 ex "metadata" f (.vmap lm')) dr = hasDrifted ex dr := by
  have hlabD := strMap_cmp_setNested2_right "labels" hnlm hm hl hperm
  have hannD := strMap_cmp_setNested2_right "annotations" hnlm hm hl hperm
  have hspecP : lookupStr "spec" (setNested2 ex "metadata" f (.vmap lm')).obj =
      lookupStr "spec" ex.obj := setNested2_other _ _ _ (by simp)
  have hwebP : lookupStr "webhooks" (setNested2 ex "metadata" f (.vmap lm')).obj =
      lookupStr "webhooks" ex.obj := setNested2_other _ _ _ (by simp)
  have hspec : topField (setNested2 ex "metadata" f (.vmap lm')) "spec" =
      topField ex "spec" := by
    rw [topField, topField, hspecP]
  have hweb : topField (setNested2 ex "metadata" f (.vmap lm')) "webhooks" =
      topField ex "webhooks" := by
    rw [topField, topField, hwebP]
  have hbody := setNested2_body_right hnobj hnmeta hnlm hm hl hperm
  rw [hasDrifted, hasDrifted]
  simp only [getLabels, getAnnotations, hlabD, hannD, hspecP, hwebP, hspec, hweb, hbody]

/-- C7: `hasDrifted` is insensitive to the key insertion order of the label
and annotation maps — replacing the label or annotation map of either object
by an equal map with permuted entry order (keys pairwise distinct, as in any
Go map) never changes the boolean result. -/
theorem hasDrifted_perm_insensitive :
    (∀ (ex dr : Unstructured) (f : String) (meta lm lm' : List (String × KVal)),
      (f = "labels" ∨ f = "annotations") →
      nodupKeysB dr.obj = true → nodupKeysB meta = true →
      lookupStr "metadata" dr.obj = some (.vmap meta) →
      lookupStr f meta = some (.vmap lm) →
      lm.Perm lm' →
      hasDrifted ex (setNested2 dr "metadata" f (.vmap lm')) = hasDrifted ex dr) ∧
    (∀ (ex dr : Unstructured) (f : String) (meta lm lm' : List (String × KVal)),
      (f = "labels" ∨ f = "annotations") →
      nodupKeysB ex.obj = true → nodupKeysB meta = true → nodupKeysB lm = true →
      lookupStr "metadata" ex.obj = some (.vmap meta) →
      lookupStr f meta = some (.vmap lm) →
      lm.Perm lm' →
      hasDrifted (setNested2 ex "metadata" f (.vmap lm')) dr = hasDrifted ex dr) :=
  ⟨fun ex dr f meta lm lm' hf hnobj hnmeta hm hl hperm =>
    hasDrifted_perm_dryrun ex dr f meta lm lm' hf hnobj hnmeta hm hl hperm,
  fun ex dr f meta lm lm' hf hnobj hnmeta hnlm hm hl hperm =>
    hasDrifted_perm_existing ex dr f meta lm lm' hf hnobj hnmeta hnlm hm hl hperm⟩

theorem hasDrifted_perm_insensitive_witness :
    hasDrifted ⟨[]⟩
      (setNested2 ⟨[("metadata", KVal.vmap [("resourceVersion", KVal.vstr "1"),
          ("labels", KVal.vmap [("a", KVal.vstr "1"), ("b", KVal.vstr "2")])])]⟩
        "metadata" "labels" (.vmap [("b", KVal.vstr "2"), ("a", KVal.vstr "1")])) =
      hasDrifted ⟨[]⟩ ⟨[("metadata", KVal.vmap [("resourceVersion", KVal.vstr "1"),
        ("labels", KVal.vmap [("a", KVal.vstr "1"), ("b", KVal.vstr "2")])])]⟩ ∧
    hasDrifted
      (setNested2 ⟨[("metadata", KVal.vmap [("resourceVersion", KVal.vstr "1"),
          ("labels", KVal.vmap [("a", KVal.vstr "1"), ("b", KVal.vstr "2")])])]⟩
        "metadata" "labels" (.vmap [("b", KVal.vstr "2"), ("a", KVal.vstr "1")])) ⟨[]⟩ =
      hasDrifted ⟨[("metadata", KVal.vmap [("resourceVersion", KVal.vstr "1"),
        ("labels", KVal.vmap [("a", KVal.vstr "1"), ("b", KVal.vstr "2")])])]⟩ ⟨[]⟩ := by
  constructor
  · exact hasDrifted_perm_insensitive.1 ⟨[]⟩
      ⟨[("metadata", KVal.vmap [("resourceVersion", KVal.vstr "1"),
        ("labels", KVal.vmap [("a", KVal.vstr "1"), ("b", KVal.vstr "2")])])]⟩
      "labels"
      [("resourceVersion", KVal.vstr "1"),
        ("labels", KVal.vmap [("a", KVal.vstr "1"), ("b", KVal.vstr "2")])]
      [("a", KVal.vstr "1"), ("b", KVal.vstr "2")]
      [("b", KVal.vstr "2"), ("a", KVal.vstr "1")]
      (Or.inl rfl)
      (by simp [nodupKeysB, keyMem])
      (by simp [nodupKeysB, keyMem])
      (by simp [lookupStr])
      (by simp [lookupStr])
      (List.Perm.swap ("b", KVal.vstr "2") ("a", KVal.vstr "1") [])
  · exact hasDrifted_perm_insensitive.2
      ⟨[("metadata", KVal.vmap [("resourceVersion", KVal.vstr "1"),
        ("labels", KVal.vmap [("a", KVal.vstr "1"), ("b", KVal.vstr "2")])])]⟩
      ⟨[]⟩
      "labels"
      [("resourceVersion", KVal.vstr "1"),
        ("labels", KVal.vmap [("a", KVal.vstr "1"), ("b", KVal.vstr "2")])]
      [("a", KVal.vstr "1"), ("b", KVal.vstr "2")]
      [("b", KVal.vstr "2"), ("a", KVal.vstr "1")]
      (Or.inl rfl)
      (by simp [nodupKeysB, keyMem])
      (by simp [nodupKeysB, keyMem])
      (by simp [nodupKeysB, keyMem])
      (by simp [lookupStr])
      (by simp [lookupStr])
      (List.Perm.swap ("b", KVal.vstr "2") ("a", KVal.vstr "1") [])

end Kustomizer
